import Mathlib

/-!
Verification development for the binary codec and cross-field validation
subsystem of the ibm-quantum-schemas repository: the tensor wire codec
(`TensorModel`), the QPY circuit envelopes (`QpyModel` and
`TypedQpyCircuitModel`), the samplex envelope (`SamplexModel`), and the
cross-field validators of the executor program models.

External collaborators (pybase64, zlib, qiskit's QPY header struct, the
qiskit circuit loader, and samplomatic) are modelled from their documented
behaviour; everything else is translated directly from the Python source.
Machine integers are modelled as `Nat` (bytes are `Nat` values below 256),
fallible constructors return `Except Err`.
-/

/-- Error kinds raised by the validators of this subsystem (the Python code
raises `ValueError` or pydantic field errors; the spec distinguishes them by
kind, which we mirror as constructors). -/
inductive Err
  | malformedTensor
  | versionMismatch
  | versionOutOfRange
  | unexpectedProgramCount
  | versionTokenMissing
  | parameterCountMismatch
  | inconsistentChunking
  | base64DecodeError
  | bufferSizeError
  | reshapeError
  | structError
  | indexError
  | fieldOutOfRange
  deriving DecidableEq, Repr

/-! ## Base-64 codec

Model of `pybase64.b64encode` / `pybase64.b64decode` (with the default
`validate=False`, which discards characters outside the base-64 alphabet
before decoding and then requires whole padded quadruples). Bytes are `Nat`
values; correctness lemmas assume they are below 256. -/

/-- The standard base-64 alphabet, as a list of characters. -/
def b64Alphabet : List Char :=
  "ABCDEFGHIJKLMNOPQRSTUVWXYZabcdefghijklmnopqrstuvwxyz0123456789+/".data

/-- The character encoding a 6-bit value. -/
def encodeB64Char (v : Nat) : Char := b64Alphabet.getD v 'A'

/-- The 6-bit value of an alphabet character, if any. -/
def charToVal (c : Char) : Option Nat := b64Alphabet.indexOf? c

/-- Whether a character is kept by `pybase64.b64decode` with
`validate=False` (alphabet characters and padding). -/
def isB64Relevant (c : Char) : Bool := b64Alphabet.contains c || c == '='

/-- Encoding of a full 3-byte group as 4 characters. -/
def encB64Three (a b c : Nat) : List Char :=
  [encodeB64Char ((a * 65536 + b * 256 + c) / 262144),
   encodeB64Char ((a * 65536 + b * 256 + c) / 4096 % 64),
   encodeB64Char ((a * 65536 + b * 256 + c) / 64 % 64),
   encodeB64Char ((a * 65536 + b * 256 + c) % 64)]

/-- Encoding of a trailing 2-byte group as 3 characters plus padding. -/
def encB64Two (a b : Nat) : List Char :=
  [encodeB64Char (a / 4), encodeB64Char (a % 4 * 16 + b / 16),
   encodeB64Char (b % 16 * 4), '=']

/-- Encoding of a trailing 1-byte group as 2 characters plus padding. -/
def encB64One (a : Nat) : List Char :=
  [encodeB64Char (a / 4), encodeB64Char (a % 4 * 16), '=', '=']

/-- Base-64 encoding of a byte list as a character list. -/
def b64encodeCore : List Nat → List Char
  | [] => []
  | [a] => encB64One a
  | [a, b] => encB64Two a b
  | [a, b, c] => encB64Three a b c
  | a :: b :: c :: d :: rest => encB64Three a b c ++ b64encodeCore (d :: rest)

/-- Model of `pybase64.b64encode` (composed with utf-8 decoding to `str`). -/
def b64encodeStr (bs : List Nat) : String := String.mk (b64encodeCore bs)

/-- Decoding of a full quadruple of characters into 3 bytes. -/
def decB64Four (c1 c2 c3 c4 : Char) : Option (List Nat) := do
  let v1 ← charToVal c1
  let v2 ← charToVal c2
  let v3 ← charToVal c3
  let v4 ← charToVal c4
  pure [v1 * 4 + v2 / 16, v2 % 16 * 16 + v3 / 4, v3 % 4 * 64 + v4]

/-- Decoding of the final quadruple, which may carry padding. -/
def decB64Final (c1 c2 c3 c4 : Char) : Option (List Nat) :=
  if c4 = '=' then
    if c3 = '=' then do
      let v1 ← charToVal c1
      let v2 ← charToVal c2
      pure [v1 * 4 + v2 / 16]
    else do
      let v1 ← charToVal c1
      let v2 ← charToVal c2
      let v3 ← charToVal c3
      pure [v1 * 4 + v2 / 16, v2 % 16 * 16 + v3 / 4]
  else decB64Four c1 c2 c3 c4

/-- Decoding of a filtered character stream quadruple by quadruple; inputs
that are not whole padded quadruples are rejected, as `binascii` rejects
them with an invalid-padding error. -/
def b64decodeQuads : List Char → Option (List Nat)
  | [] => some []
  | c1 :: c2 :: c3 :: c4 :: rest =>
    if rest.isEmpty then decB64Final c1 c2 c3 c4
    else do
      let bs ← decB64Four c1 c2 c3 c4
      let rs ← b64decodeQuads rest
      pure (bs ++ rs)
  | _ => none

/-- Model of `pybase64.b64decode` with `validate=False`: characters outside
the alphabet are discarded before decoding; `none` models the raised
`binascii.Error`. -/
def b64decodeModel (s : String) : Option (List Nat) :=
  b64decodeQuads (s.data.filter isB64Relevant)

/-! ## Little-endian bytes and bit packing -/

/-- The `k` little-endian bytes of `n` (model of NumPy `tobytes` for one
fixed-width little-endian element). -/
def natToBytesLE : Nat → Nat → List Nat
  | 0, _ => []
  | k + 1, n => n % 256 :: natToBytesLE k (n / 256)

/-- Recombination of little-endian bytes into a value (model of NumPy
`frombuffer` for one element). -/
def bytesToNatLE (l : List Nat) : Nat := l.foldr (fun b acc => b + 256 * acc) 0

/-- The value of a list of bits, least-significant first. -/
def bitsToByte (l : List Bool) : Nat :=
  l.foldr (fun b acc => (if b then 1 else 0) + 2 * acc) 0

/-- Model of `np.packbits(array, bitorder="little")`: 8 booleans per byte,
least-significant bit first, final byte zero-padded. -/
def packbitsLE : List Bool → List Nat
  | [] => []
  | b0 :: b1 :: b2 :: b3 :: b4 :: b5 :: b6 :: b7 :: rest =>
    bitsToByte [b0, b1, b2, b3, b4, b5, b6, b7] :: packbitsLE rest
  | l => [bitsToByte l]

/-- The `k` low bits of `n`, least-significant first. -/
def natToBits : Nat → Nat → List Bool
  | 0, _ => []
  | k + 1, n => (n % 2 == 1) :: natToBits k (n / 2)

/-- Model of `np.unpackbits` for a single byte with `bitorder="little"`. -/
def byteToBits (n : Nat) : List Bool := natToBits 8 n

/-- Split a list into consecutive chunks of size `k` (the final chunk may be
short); used to model `np.frombuffer` splitting a buffer into elements. -/
def chunksOfExact (k : Nat) : List α → List (List α)
  | [] => []
  | a :: rest => (a :: rest.take (k - 1)) :: chunksOfExact k (rest.drop (k - 1))
  termination_by l => l.length
  decreasing_by
    simp only [List.length_cons]
    have := List.length_drop (k - 1) rest
    omega

/-! ## TensorModel -/

/-- The dtype enumeration of `TensorModel`. -/
inductive Dtype
  | f64
  | u8
  | bool
  deriving DecidableEq, Repr

/-- Model of `TensorModel`: base-64 encoded data, shape, and dtype. -/
structure TensorModel where
  data : String
  shape : List Nat
  dtype : Dtype
  deriving DecidableEq, Repr

/-- The byte length implied by shape and dtype:
`ceil(prod(shape) * elem_size)` with element sizes 8, 1 and 1/8 bytes
(`math.ceil(math.prod(shape) * 0.125)` equals `(prod + 7) / 8` on naturals).
-/
def nbytesD : Dtype → List Nat → Nat
  | .f64, shape => shape.prod * 8
  | .u8, shape => shape.prod
  | .bool, shape => (shape.prod + 7) / 8

/-- The count of padding characters among the last two data characters,
modelling the Python slice expression counting trailing base-64 padding. -/
def lastTwoEqCount (l : List Char) : Nat :=
  (l.drop (l.length - 2)).count '='

/-- The data length in bytes as derived by `TensorModel.check_sizes` purely
from character counts: three bytes per whole quadruple of characters, minus
the padding characters among the final two. The value is an integer because
the Python expression can go negative. -/
def lenDataInt (l : List Char) : Int :=
  ((l.length / 4) * 3 : Nat) - (lastTwoEqCount l : Nat)

/-- Model of the `TensorModel.check_sizes` validator condition. -/
def checkSizes (t : TensorModel) : Bool :=
  lenDataInt t.data.data == (nbytesD t.dtype t.shape : Int)

/-- Construction of a `TensorModel`, running the `check_sizes`
model validator. -/
def mkTensorModel (data : String) (shape : List Nat) (dtype : Dtype) :
    Except Err TensorModel :=
  let t : TensorModel := ⟨data, shape, dtype⟩
  if checkSizes t then .ok t else .error .malformedTensor

/-- A NumPy array of one of the supported dtypes: a shape and the row-major
flattened elements. Float64 elements are modelled by their 64-bit IEEE-754
little-endian bit patterns, so equality of models is bit-for-bit equality of
arrays. -/
inductive NpArray
  | f64 (shape : List Nat) (elems : List Nat)
  | u8 (shape : List Nat) (elems : List Nat)
  | bool (shape : List Nat) (elems : List Bool)
  deriving DecidableEq, Repr

/-- The shape of an array. -/
def npShape : NpArray → List Nat
  | .f64 s _ => s
  | .u8 s _ => s
  | .bool s _ => s

/-- Well-formedness of an array model: the flattened element count matches
the shape, and elements fit their width. -/
def npWF : NpArray → Prop
  | .f64 s e => e.length = s.prod ∧ ∀ x ∈ e, x < 2 ^ 64
  | .u8 s e => e.length = s.prod ∧ ∀ x ∈ e, x < 256
  | .bool s e => e.length = s.prod

/-- Model of `TensorModel.from_numpy`: serialize the elements (little-endian
f64 bytes, raw u8 bytes, or little-bit-order packed bits), base-64 encode,
and construct the model (running its validator). -/
def from_numpy : NpArray → Except Err TensorModel
  | .f64 shape elems =>
    mkTensorModel (b64encodeStr (elems.flatMap (natToBytesLE 8))) shape .f64
  | .u8 shape elems => mkTensorModel (b64encodeStr elems) shape .u8
  | .bool shape elems =>
    mkTensorModel (b64encodeStr (packbitsLE elems)) shape .bool

/-- Model of `TensorModel.to_numpy`: base-64 decode, reinterpret the bytes
per dtype, and reshape; the error cases model the exceptions of
`pybase64.b64decode`, `np.frombuffer` and `reshape`. For booleans the
unpacked bits are truncated to `prod(shape)` elements, discarding the
trailing padding bits. -/
def to_numpy (t : TensorModel) : Except Err NpArray :=
  match b64decodeModel t.data with
  | none => .error .base64DecodeError
  | some raw =>
    match t.dtype with
    | .f64 =>
      if raw.length % 8 = 0 then
        let elems := (chunksOfExact 8 raw).map bytesToNatLE
        if elems.length = t.shape.prod then .ok (.f64 t.shape elems)
        else .error .reshapeError
      else .error .bufferSizeError
    | .u8 =>
      if raw.length = t.shape.prod then .ok (.u8 t.shape raw)
      else .error .reshapeError
    | .bool =>
      let bits := (raw.flatMap byteToBits).take t.shape.prod
      if bits.length = t.shape.prod then .ok (.bool t.shape bits)
      else .error .reshapeError

/-! ## Base-64 lemmas -/

theorem charToVal_encodeB64Char :
    ∀ v : Fin 64, charToVal (encodeB64Char v.val) = some v.val := by decide

theorem isB64Relevant_encodeB64Char :
    ∀ v : Fin 64, isB64Relevant (encodeB64Char v.val) = true := by decide

theorem charToVal_enc_of_lt {v : Nat} (h : v < 64) :
    charToVal (encodeB64Char v) = some v := charToVal_encodeB64Char ⟨v, h⟩

theorem relevant_enc_of_lt {v : Nat} (h : v < 64) :
    isB64Relevant (encodeB64Char v) = true := isB64Relevant_encodeB64Char ⟨v, h⟩

theorem relevant_pad : isB64Relevant '=' = true := by decide

theorem encodeB64Char_ne_pad {v : Nat} (h : v < 64) : encodeB64Char v ≠ '=' := by
  intro he
  have h1 := charToVal_enc_of_lt h
  rw [he] at h1
  have h2 : charToVal '=' = none := by decide
  rw [h2] at h1
  exact Option.noConfusion h1

theorem mem_b64encodeCore_relevant :
    ∀ (bs : List Nat), (∀ b ∈ bs, b < 256) →
      ∀ x ∈ b64encodeCore bs, isB64Relevant x = true := by
  intro bs
  induction bs using b64encodeCore.induct with
  | case1 =>
    intro _ x hx
    simp [b64encodeCore] at hx
  | case2 a =>
    intro hb x hx
    have ha : a < 256 := hb a (by simp)
    simp only [b64encodeCore, encB64One, List.mem_cons, List.not_mem_nil,
      or_false] at hx
    rcases hx with h | h | h | h <;> subst h
    · exact relevant_enc_of_lt (by omega)
    · exact relevant_enc_of_lt (by omega)
    · exact relevant_pad
    · exact relevant_pad
  | case3 a b =>
    intro hb x hx
    have ha : a < 256 := hb a (by simp)
    have hb2 : b < 256 := hb b (by simp)
    simp only [b64encodeCore, encB64Two, List.mem_cons, List.not_mem_nil,
      or_false] at hx
    rcases hx with h | h | h | h <;> subst h
    · exact relevant_enc_of_lt (by omega)
    · exact relevant_enc_of_lt (by omega)
    · exact relevant_enc_of_lt (by omega)
    · exact relevant_pad
  | case4 a b c =>
    intro hb x hx
    have ha : a < 256 := hb a (by simp)
    have hb2 : b < 256 := hb b (by simp)
    have hc : c < 256 := hb c (by simp)
    simp only [b64encodeCore, encB64Three, List.mem_cons, List.not_mem_nil,
      or_false] at hx
    rcases hx with h | h | h | h <;> subst h <;>
      exact relevant_enc_of_lt (by omega)
  | case5 a b c d rest ih =>
    intro hb x hx
    have ha : a < 256 := hb a (by simp)
    have hb2 : b < 256 := hb b (by simp)
    have hc : c < 256 := hb c (by simp)
    simp only [b64encodeCore, encB64Three, List.cons_append, List.nil_append,
      List.mem_cons] at hx
    rcases hx with h | h | h | h | h
    · subst h; exact relevant_enc_of_lt (by omega)
    · subst h; exact relevant_enc_of_lt (by omega)
    · subst h; exact relevant_enc_of_lt (by omega)
    · subst h; exact relevant_enc_of_lt (by omega)
    · exact ih (fun y hy => hb y (by simp [hy])) x h

theorem filter_b64encodeCore (bs : List Nat) (hb : ∀ b ∈ bs, b < 256) :
    (b64encodeCore bs).filter isB64Relevant = b64encodeCore bs :=
  List.filter_eq_self.mpr (mem_b64encodeCore_relevant bs hb)

theorem b64encodeCore_ne_nil (x : Nat) (l : List Nat) :
    b64encodeCore (x :: l) ≠ [] := by
  match l with
  | [] => simp [b64encodeCore, encB64One]
  | [b] => simp [b64encodeCore, encB64Two]
  | [b, c] => simp [b64encodeCore, encB64Three]
  | b :: c :: d :: rest => simp [b64encodeCore, encB64Three]

theorem four_le_b64encodeCore_length (x : Nat) (l : List Nat) :
    4 ≤ (b64encodeCore (x :: l)).length := by
  match l with
  | [] => simp [b64encodeCore, encB64One]
  | [b] => simp [b64encodeCore, encB64Two]
  | [b, c] => simp [b64encodeCore, encB64Three]
  | b :: c :: d :: rest => simp [b64encodeCore, encB64Three]

theorem decB64Four_enc (a b c : Nat) (ha : a < 256) (hb : b < 256)
    (hc : c < 256) :
    decB64Four (encodeB64Char ((a * 65536 + b * 256 + c) / 262144))
      (encodeB64Char ((a * 65536 + b * 256 + c) / 4096 % 64))
      (encodeB64Char ((a * 65536 + b * 256 + c) / 64 % 64))
      (encodeB64Char ((a * 65536 + b * 256 + c) % 64)) = some [a, b, c] := by
  have e1 := charToVal_enc_of_lt (v := (a * 65536 + b * 256 + c) / 262144)
    (by omega)
  have e2 := charToVal_enc_of_lt (v := (a * 65536 + b * 256 + c) / 4096 % 64)
    (by omega)
  have e3 := charToVal_enc_of_lt (v := (a * 65536 + b * 256 + c) / 64 % 64)
    (by omega)
  have e4 := charToVal_enc_of_lt (v := (a * 65536 + b * 256 + c) % 64)
    (by omega)
  have h1 : (a * 65536 + b * 256 + c) / 262144 * 4 +
      (a * 65536 + b * 256 + c) / 4096 % 64 / 16 = a := by omega
  have h2 : (a * 65536 + b * 256 + c) / 4096 % 64 % 16 * 16 +
      (a * 65536 + b * 256 + c) / 64 % 64 / 4 = b := by omega
  have h3 : (a * 65536 + b * 256 + c) / 64 % 64 % 4 * 64 +
      (a * 65536 + b * 256 + c) % 64 = c := by omega
  simp only [decB64Four, e1, e2, e3, e4, Option.bind_eq_bind,
    Option.some_bind, h1, h2, h3]
  rfl

theorem b64decodeQuads_encodeCore :
    ∀ (bs : List Nat), (∀ b ∈ bs, b < 256) →
      b64decodeQuads (b64encodeCore bs) = some bs := by
  intro bs
  induction bs using b64encodeCore.induct with
  | case1 => intro _; rfl
  | case2 a =>
    intro hb
    have ha : a < 256 := hb a (by simp)
    have e1 := charToVal_enc_of_lt (v := a / 4) (by omega)
    have e2 := charToVal_enc_of_lt (v := a % 4 * 16) (by omega)
    have h1 : a / 4 * 4 + a % 4 * 16 / 16 = a := by omega
    simp only [b64encodeCore, encB64One, b64decodeQuads, List.isEmpty_nil,
      if_true, decB64Final, if_pos rfl, e1, e2, Option.bind_eq_bind,
      Option.some_bind, h1]
    rfl
  | case3 a b =>
    intro hb
    have ha : a < 256 := hb a (by simp)
    have hb2 : b < 256 := hb b (by simp)
    have e1 := charToVal_enc_of_lt (v := a / 4) (by omega)
    have e2 := charToVal_enc_of_lt (v := a % 4 * 16 + b / 16) (by omega)
    have e3 := charToVal_enc_of_lt (v := b % 16 * 4) (by omega)
    have hne : encodeB64Char (b % 16 * 4) ≠ '=' := encodeB64Char_ne_pad (by omega)
    have h1 : a / 4 * 4 + (a % 4 * 16 + b / 16) / 16 = a := by omega
    have h2 : (a % 4 * 16 + b / 16) % 16 * 16 + b % 16 * 4 / 4 = b := by omega
    simp only [b64encodeCore, encB64Two, b64decodeQuads, List.isEmpty_nil,
      if_true, decB64Final, if_pos rfl, if_neg hne, e1, e2, e3,
      Option.bind_eq_bind, Option.some_bind, h1, h2]
    rfl
  | case4 a b c =>
    intro hb
    have ha : a < 256 := hb a (by simp)
    have hb2 : b < 256 := hb b (by simp)
    have hc : c < 256 := hb c (by simp)
    have hne : encodeB64Char ((a * 65536 + b * 256 + c) % 64) ≠ '=' :=
      encodeB64Char_ne_pad (by omega)
    simp only [b64encodeCore, encB64Three, b64decodeQuads, List.isEmpty_nil,
      if_true, decB64Final, if_neg hne]
    exact decB64Four_enc a b c ha hb2 hc
  | case5 a b c d rest ih =>
    intro hb
    have ha : a < 256 := hb a (by simp)
    have hb2 : b < 256 := hb b (by simp)
    have hc : c < 256 := hb c (by simp)
    have hrec := ih (fun y hy => hb y (by simp [hy]))
    have hne := b64encodeCore_ne_nil d rest
    simp only [b64encodeCore, encB64Three, List.cons_append, List.nil_append,
      b64decodeQuads, List.append_eq, List.isEmpty_eq_true]
    rw [if_neg hne, decB64Four_enc a b c ha hb2 hc, hrec]
    rfl

theorem b64decode_encode (bs : List Nat) (hb : ∀ b ∈ bs, b < 256) :
    b64decodeModel (b64encodeStr bs) = some bs := by
  show b64decodeQuads ((b64encodeCore bs).filter isB64Relevant) = some bs
  rw [filter_b64encodeCore bs hb]
  exact b64decodeQuads_encodeCore bs hb

/-! ## Length lemmas for the check_sizes validator -/

theorem lenDataInt_nil : lenDataInt [] = 0 := by decide

theorem lenDataInt_quad (c1 c2 c3 c4 : Char) (l : List Char)
    (h2 : 2 ≤ l.length) :
    lenDataInt (c1 :: c2 :: c3 :: c4 :: l) = 3 + lenDataInt l := by
  have hdrop : (c1 :: c2 :: c3 :: c4 :: l).drop
      ((c1 :: c2 :: c3 :: c4 :: l).length - 2) = l.drop (l.length - 2) := by
    have hlen : (c1 :: c2 :: c3 :: c4 :: l).length - 2 =
        [c1, c2, c3, c4].length + (l.length - 2) := by
      simp only [List.length_cons, List.length_nil]
      omega
    rw [hlen]
    exact List.drop_append (l.length - 2)
  unfold lenDataInt lastTwoEqCount
  rw [hdrop]
  have hq : ((c1 :: c2 :: c3 :: c4 :: l).length / 4) * 3 =
      3 + (l.length / 4) * 3 := by
    simp only [List.length_cons]
    omega
  rw [hq]
  push_cast
  ring

theorem lenDataInt_encodeCore :
    ∀ (bs : List Nat), (∀ b ∈ bs, b < 256) →
      lenDataInt (b64encodeCore bs) = bs.length := by
  intro bs
  induction bs using b64encodeCore.induct with
  | case1 => intro _; decide
  | case2 a =>
    intro hb
    have ha : a < 256 := hb a (by simp)
    have hp1 : encodeB64Char (a / 4) ≠ '=' := encodeB64Char_ne_pad (by omega)
    show lenDataInt (encB64One a) = 1
    unfold lenDataInt lastTwoEqCount encB64One
    norm_num [List.count_cons]
  | case3 a b =>
    intro hb
    have ha : a < 256 := hb a (by simp)
    have hb2 : b < 256 := hb b (by simp)
    have hp3 : (encodeB64Char (b % 16 * 4) == '=') = false := by
      simpa using encodeB64Char_ne_pad (v := b % 16 * 4) (by omega)
    show lenDataInt (encB64Two a b) = 2
    unfold lenDataInt lastTwoEqCount encB64Two
    norm_num [List.count_cons, hp3]
  | case4 a b c =>
    intro hb
    have ha : a < 256 := hb a (by simp)
    have hb2 : b < 256 := hb b (by simp)
    have hc : c < 256 := hb c (by simp)
    have hp3 : (encodeB64Char ((a * 65536 + b * 256 + c) / 64 % 64) == '=') =
        false := by
      simpa using encodeB64Char_ne_pad
        (v := (a * 65536 + b * 256 + c) / 64 % 64) (by omega)
    have hp4 : (encodeB64Char ((a * 65536 + b * 256 + c) % 64) == '=') =
        false := by
      simpa using encodeB64Char_ne_pad
        (v := (a * 65536 + b * 256 + c) % 64) (by omega)
    show lenDataInt (encB64Three a b c) = 3
    unfold lenDataInt lastTwoEqCount encB64Three
    norm_num [List.count_cons, hp3, hp4]
  | case5 a b c d rest ih =>
    intro hb
    have hrec := ih (fun y hy => hb y (by simp [hy]))
    have hlen : 2 ≤ (b64encodeCore (d :: rest)).length := by
      have := four_le_b64encodeCore_length d rest
      omega
    show lenDataInt (encB64Three a b c ++ b64encodeCore (d :: rest)) =
      ((a :: b :: c :: d :: rest).length : Int)
    rw [show encB64Three a b c ++ b64encodeCore (d :: rest) =
      encodeB64Char ((a * 65536 + b * 256 + c) / 262144) ::
      encodeB64Char ((a * 65536 + b * 256 + c) / 4096 % 64) ::
      encodeB64Char ((a * 65536 + b * 256 + c) / 64 % 64) ::
      encodeB64Char ((a * 65536 + b * 256 + c) % 64) ::
      b64encodeCore (d :: rest) from rfl]
    rw [lenDataInt_quad _ _ _ _ _ hlen, hrec]
    simp only [List.length_cons]
    push_cast
    ring

theorem lenDataInt_encodeCore_dropLast :
    ∀ (bs : List Nat), (∀ b ∈ bs, b < 256) → bs ≠ [] →
      lenDataInt ((b64encodeCore bs).dropLast) ≠ (bs.length : Int) := by
  intro bs
  induction bs using b64encodeCore.induct with
  | case1 => intro _ hne; exact absurd rfl hne
  | case2 a =>
    intro hb _
    have ha : a < 256 := hb a (by simp)
    have hp2 : (encodeB64Char (a % 4 * 16) == '=') = false := by
      simpa using encodeB64Char_ne_pad (v := a % 4 * 16) (by omega)
    show lenDataInt (encB64One a).dropLast ≠ 1
    unfold lenDataInt lastTwoEqCount encB64One
    norm_num [List.count_cons, hp2]
  | case3 a b =>
    intro hb _
    have ha : a < 256 := hb a (by simp)
    have hb2 : b < 256 := hb b (by simp)
    have hp2 : (encodeB64Char (a % 4 * 16 + b / 16) == '=') = false := by
      simpa using encodeB64Char_ne_pad (v := a % 4 * 16 + b / 16) (by omega)
    have hp3 : (encodeB64Char (b % 16 * 4) == '=') = false := by
      simpa using encodeB64Char_ne_pad (v := b % 16 * 4) (by omega)
    show lenDataInt (encB64Two a b).dropLast ≠ 2
    unfold lenDataInt lastTwoEqCount encB64Two
    norm_num [List.count_cons, hp2, hp3]
  | case4 a b c =>
    intro hb _
    have ha : a < 256 := hb a (by simp)
    have hb2 : b < 256 := hb b (by simp)
    have hc : c < 256 := hb c (by simp)
    have hp2 : (encodeB64Char ((a * 65536 + b * 256 + c) / 4096 % 64) == '=') =
        false := by
      simpa using encodeB64Char_ne_pad
        (v := (a * 65536 + b * 256 + c) / 4096 % 64) (by omega)
    have hp3 : (encodeB64Char ((a * 65536 + b * 256 + c) / 64 % 64) == '=') =
        false := by
      simpa using encodeB64Char_ne_pad
        (v := (a * 65536 + b * 256 + c) / 64 % 64) (by omega)
    show lenDataInt (encB64Three a b c).dropLast ≠ 3
    unfold lenDataInt lastTwoEqCount encB64Three
    norm_num [List.count_cons, hp2, hp3]
  | case5 a b c d rest ih =>
    intro hb _
    have hrec := ih (fun y hy => hb y (by simp [hy])) (by simp)
    have hne := b64encodeCore_ne_nil d rest
    have hfour := four_le_b64encodeCore_length d rest
    have hlen : 2 ≤ (b64encodeCore (d :: rest)).dropLast.length := by
      rw [List.length_dropLast]
      omega
    show lenDataInt ((encB64Three a b c ++ b64encodeCore (d :: rest)).dropLast) ≠
      ((a :: b :: c :: d :: rest).length : Int)
    rw [List.dropLast_append_of_ne_nil _ hne]
    rw [show encB64Three a b c ++ (b64encodeCore (d :: rest)).dropLast =
      encodeB64Char ((a * 65536 + b * 256 + c) / 262144) ::
      encodeB64Char ((a * 65536 + b * 256 + c) / 4096 % 64) ::
      encodeB64Char ((a * 65536 + b * 256 + c) / 64 % 64) ::
      encodeB64Char ((a * 65536 + b * 256 + c) % 64) ::
      (b64encodeCore (d :: rest)).dropLast from rfl]
    rw [lenDataInt_quad _ _ _ _ _ hlen]
    simp only [List.length_cons] at hrec ⊢
    push_cast at hrec ⊢
    omega

/-! ## Byte and bit round-trip lemmas -/

theorem natToBytesLE_length (k n : Nat) : (natToBytesLE k n).length = k := by
  induction k generalizing n with
  | zero => rfl
  | succ k ih => simp [natToBytesLE, ih]

theorem natToBytesLE_lt (k n : Nat) : ∀ b ∈ natToBytesLE k n, b < 256 := by
  induction k generalizing n with
  | zero => intro b hb; simp [natToBytesLE] at hb
  | succ k ih =>
    intro b hb
    simp only [natToBytesLE, List.mem_cons] at hb
    rcases hb with h | h
    · omega
    · exact ih (n / 256) b h

theorem bytesToNatLE_natToBytesLE (k n : Nat) (h : n < 256 ^ k) :
    bytesToNatLE (natToBytesLE k n) = n := by
  induction k generalizing n with
  | zero =>
    simp only [pow_zero, Nat.lt_one_iff] at h
    simp [natToBytesLE, bytesToNatLE, h]
  | succ k ih =>
    have hlt : n / 256 < 256 ^ k := by
      rw [Nat.div_lt_iff_lt_mul (by norm_num)]
      calc n < 256 ^ (k + 1) := h
        _ = 256 ^ k * 256 := by ring
    simp only [natToBytesLE, bytesToNatLE, List.foldr_cons]
    have := ih (n / 256) hlt
    simp only [bytesToNatLE] at this
    rw [this]
    omega

theorem flatMap_length_const {α β : Type} (f : α → List β) (k : Nat)
    (hf : ∀ x, (f x).length = k) (l : List α) :
    (l.flatMap f).length = k * l.length := by
  induction l with
  | nil => simp
  | cons x xs ih =>
    simp only [List.flatMap_cons, List.length_append, ih, hf x,
      List.length_cons]
    ring

theorem chunksOfExact_flatMap {α β : Type} (f : β → List α) (k : Nat)
    (hk : 0 < k) (hf : ∀ x, (f x).length = k) :
    ∀ l : List β, chunksOfExact k (l.flatMap f) = l.map f := by
  intro l
  induction l with
  | nil => simp [chunksOfExact]
  | cons x xs ih =>
    have hx : f x ≠ [] := by
      intro he
      have := hf x
      rw [he] at this
      simp at this
      omega
    obtain ⟨a, t, ht⟩ : ∃ a t, f x = a :: t := by
      cases hfx : f x with
      | nil => exact absurd hfx hx
      | cons a t => exact ⟨a, t, rfl⟩
    have htlen : t.length = k - 1 := by
      have := hf x
      rw [ht] at this
      simp only [List.length_cons] at this
      omega
    simp only [List.flatMap_cons, List.map_cons, ht, List.cons_append]
    rw [chunksOfExact]
    congr 1
    · rw [List.take_left' (by rw [htlen])]
    · rw [List.drop_left' (by rw [htlen])]
      exact ih

theorem natToBits_bitsToByte (l : List Bool) (k : Nat) (h : l.length ≤ k) :
    natToBits k (bitsToByte l) = l ++ List.replicate (k - l.length) false := by
  induction l generalizing k with
  | nil =>
    simp only [bitsToByte, List.foldr_nil, List.nil_append, List.length_nil,
      Nat.sub_zero]
    induction k with
    | zero => rfl
    | succ k ihk => simp [natToBits, ihk, List.replicate_succ]
  | cons b bs ih =>
    cases k with
    | zero => simp at h
    | succ k =>
      have hrest : bs.length ≤ k := by simp at h; omega
      have hval : bitsToByte (b :: bs) =
          (if b then 1 else 0) + 2 * bitsToByte bs := rfl
      have hmod : (((if b then 1 else 0) + 2 * bitsToByte bs) % 2 == 1) = b := by
        cases b
        · simp [Nat.mul_mod_right]
        · simp [Nat.add_mul_mod_self_left]
      have hdiv : ((if b then 1 else 0) + 2 * bitsToByte bs) / 2 =
          bitsToByte bs := by
        cases b <;> simp only [if_true, if_false, Bool.false_eq_true] <;> omega
      rw [show natToBits (k + 1) (bitsToByte (b :: bs)) =
        ((bitsToByte (b :: bs)) % 2 == 1) ::
          natToBits k ((bitsToByte (b :: bs)) / 2) from rfl]
      rw [hval, hmod, hdiv, ih k hrest]
      have hcount : k + 1 - (b :: bs).length = k - bs.length := by
        simp only [List.length_cons]
        omega
      rw [hcount]
      simp

theorem bitsToByte_lt (l : List Bool) : bitsToByte l < 2 ^ l.length := by
  induction l with
  | nil => simp [bitsToByte]
  | cons b bs ih =>
    have hval : bitsToByte (b :: bs) =
        (if b then 1 else 0) + 2 * bitsToByte bs := rfl
    rw [hval]
    simp only [List.length_cons, pow_succ]
    cases b <;> simp <;> omega

theorem length_lt_of_no_eight (l : List Bool)
    (h2 : ∀ (b0 b1 b2 b3 b4 b5 b6 b7 : Bool) (rest : List Bool),
      l = b0 :: b1 :: b2 :: b3 :: b4 :: b5 :: b6 :: b7 :: rest → False) :
    l.length < 8 := by
  by_contra hcon
  push_neg at hcon
  rcases l with _ | ⟨b0, l⟩
  · simp at hcon
  rcases l with _ | ⟨b1, l⟩
  · simp at hcon
  rcases l with _ | ⟨b2, l⟩
  · simp only [List.length_cons, List.length_nil] at hcon; omega
  rcases l with _ | ⟨b3, l⟩
  · simp only [List.length_cons, List.length_nil] at hcon; omega
  rcases l with _ | ⟨b4, l⟩
  · simp only [List.length_cons, List.length_nil] at hcon; omega
  rcases l with _ | ⟨b5, l⟩
  · simp only [List.length_cons, List.length_nil] at hcon; omega
  rcases l with _ | ⟨b6, l⟩
  · simp only [List.length_cons, List.length_nil] at hcon; omega
  rcases l with _ | ⟨b7, l⟩
  · simp only [List.length_cons, List.length_nil] at hcon; omega
  exact h2 b0 b1 b2 b3 b4 b5 b6 b7 l rfl

theorem packbitsLE_lt : ∀ l : List Bool, ∀ b ∈ packbitsLE l, b < 256 := by
  intro l
  induction l using packbitsLE.induct with
  | case1 => intro b hb; simp [packbitsLE] at hb
  | case2 b0 b1 b2 b3 b4 b5 b6 b7 rest ih =>
    intro b hb
    simp only [packbitsLE, List.mem_cons] at hb
    rcases hb with h | h
    · subst h
      have := bitsToByte_lt [b0, b1, b2, b3, b4, b5, b6, b7]
      simpa using this
    · exact ih b h
  | case3 l h1 h2 =>
    intro b hb
    simp only [packbitsLE, List.mem_cons, List.not_mem_nil, or_false] at hb
    subst hb
    have hlt := bitsToByte_lt l
    have hl8 : l.length < 8 := length_lt_of_no_eight l h2
    have hpow : 2 ^ l.length ≤ 2 ^ 8 :=
      Nat.pow_le_pow_right (by norm_num) (by omega)
    omega

theorem packbitsLE_length : ∀ l : List Bool,
    (packbitsLE l).length = (l.length + 7) / 8 := by
  intro l
  induction l using packbitsLE.induct with
  | case1 => rfl
  | case2 b0 b1 b2 b3 b4 b5 b6 b7 rest ih =>
    simp only [packbitsLE, List.length_cons, ih]
    omega
  | case3 l h1 h2 =>
    have hl8 : l.length < 8 := length_lt_of_no_eight l h2
    have hne : l ≠ [] := fun he => h1 he
    have hpos : 0 < l.length := List.length_pos.mpr hne
    simp only [packbitsLE, List.length_cons, List.length_nil]
    omega

theorem unpack_pack (l : List Bool) :
    ((packbitsLE l).flatMap byteToBits).take l.length = l := by
  induction l using packbitsLE.induct with
  | case1 => rfl
  | case2 b0 b1 b2 b3 b4 b5 b6 b7 rest ih =>
    have hfull : byteToBits (bitsToByte [b0, b1, b2, b3, b4, b5, b6, b7]) =
        [b0, b1, b2, b3, b4, b5, b6, b7] := by
      have := natToBits_bitsToByte [b0, b1, b2, b3, b4, b5, b6, b7] 8
        (by simp)
      simpa [byteToBits] using this
    simp only [packbitsLE, List.flatMap_cons, hfull, List.length_cons]
    have hlen : rest.length + 1 + 1 + 1 + 1 + 1 + 1 + 1 + 1 =
        ([b0, b1, b2, b3, b4, b5, b6, b7] : List Bool).length + rest.length := by
      simp
      omega
    rw [hlen, List.take_append, ih]
    simp
  | case3 l h1 h2 =>
    have hl8 : l.length < 8 := length_lt_of_no_eight l h2
    have hpad : byteToBits (bitsToByte l) =
        l ++ List.replicate (8 - l.length) false := by
      have := natToBits_bitsToByte l 8 (by omega)
      simpa [byteToBits] using this
    simp only [packbitsLE, List.flatMap_cons, List.flatMap_nil,
      List.append_nil, hpad]
    rw [List.take_left]

/-! ## Tensor round-trip -/

theorem roundtrip_f64 (shape elems : List Nat)
    (hlen : elems.length = shape.prod) (helem : ∀ x ∈ elems, x < 2 ^ 64) :
    (from_numpy (.f64 shape elems)).bind to_numpy =
      .ok (.f64 shape elems) := by
  have hblt : ∀ b ∈ elems.flatMap (natToBytesLE 8), b < 256 := by
    intro b hb
    simp only [List.mem_flatMap] at hb
    obtain ⟨x, hx, hbx⟩ := hb
    exact natToBytesLE_lt 8 x b hbx
  have hbl : (elems.flatMap (natToBytesLE 8)).length = 8 * elems.length :=
    flatMap_length_const _ 8 (fun x => natToBytesLE_length 8 x) elems
  have hcheck : checkSizes
      ⟨b64encodeStr (elems.flatMap (natToBytesLE 8)), shape, .f64⟩ = true := by
    simp only [checkSizes, beq_iff_eq]
    rw [show (TensorModel.mk (b64encodeStr (elems.flatMap (natToBytesLE 8)))
      shape .f64).data.data = b64encodeCore (elems.flatMap (natToBytesLE 8))
      from rfl]
    rw [lenDataInt_encodeCore _ hblt]
    show ((elems.flatMap (natToBytesLE 8)).length : Int) = (nbytesD .f64 shape : Int)
    rw [hbl, hlen]
    simp only [nbytesD]
    push_cast
    ring
  have hmk : from_numpy (.f64 shape elems) =
      .ok ⟨b64encodeStr (elems.flatMap (natToBytesLE 8)), shape, .f64⟩ := by
    simp only [from_numpy, mkTensorModel, hcheck, if_true]
  rw [hmk]
  have hdec : b64decodeModel (b64encodeStr (elems.flatMap (natToBytesLE 8))) =
      some (elems.flatMap (natToBytesLE 8)) := b64decode_encode _ hblt
  have hmod : (elems.flatMap (natToBytesLE 8)).length % 8 = 0 := by omega
  have hchunk : chunksOfExact 8 (elems.flatMap (natToBytesLE 8)) =
      elems.map (natToBytesLE 8) :=
    chunksOfExact_flatMap (natToBytesLE 8) 8 (by norm_num)
      (fun x => natToBytesLE_length 8 x) elems
  have hmap : (elems.map (natToBytesLE 8)).map bytesToNatLE = elems := by
    rw [List.map_map]
    have hcong : ∀ x ∈ elems, (bytesToNatLE ∘ natToBytesLE 8) x = id x := by
      intro x hx
      simp only [Function.comp_apply, id_eq]
      exact bytesToNatLE_natToBytesLE 8 x
        (by have := helem x hx; norm_num; omega)
    rw [List.map_congr_left hcong, List.map_id]
  show Except.bind _ _ = _
  simp only [Except.bind, to_numpy, hdec, hchunk, hmap, hmod, if_true]
  rw [if_pos (by rw [hmap.symm] at hlen; simpa using hlen)]

theorem roundtrip_u8 (shape elems : List Nat)
    (hlen : elems.length = shape.prod) (helem : ∀ x ∈ elems, x < 256) :
    (from_numpy (.u8 shape elems)).bind to_numpy = .ok (.u8 shape elems) := by
  have hcheck : checkSizes ⟨b64encodeStr elems, shape, .u8⟩ = true := by
    simp only [checkSizes, beq_iff_eq]
    rw [show (TensorModel.mk (b64encodeStr elems) shape .u8).data.data =
      b64encodeCore elems from rfl]
    rw [lenDataInt_encodeCore _ helem]
    show (elems.length : Int) = (nbytesD .u8 shape : Int)
    rw [hlen]
    simp [nbytesD]
  have hmk : from_numpy (.u8 shape elems) =
      .ok ⟨b64encodeStr elems, shape, .u8⟩ := by
    simp only [from_numpy, mkTensorModel, hcheck, if_true]
  rw [hmk]
  have hdec : b64decodeModel (b64encodeStr elems) = some elems :=
    b64decode_encode _ helem
  show Except.bind _ _ = _
  simp only [Except.bind, to_numpy, hdec]
  rw [if_pos (by simpa using hlen)]

theorem roundtrip_bool (shape : List Nat) (elems : List Bool)
    (hlen : elems.length = shape.prod) :
    (from_numpy (.bool shape elems)).bind to_numpy =
      .ok (.bool shape elems) := by
  have hblt := packbitsLE_lt elems
  have hcheck : checkSizes ⟨b64encodeStr (packbitsLE elems), shape, .bool⟩ =
      true := by
    simp only [checkSizes, beq_iff_eq]
    rw [show (TensorModel.mk (b64encodeStr (packbitsLE elems)) shape
      .bool).data.data = b64encodeCore (packbitsLE elems) from rfl]
    rw [lenDataInt_encodeCore _ hblt]
    show ((packbitsLE elems).length : Int) = (nbytesD .bool shape : Int)
    rw [packbitsLE_length, hlen]
    simp [nbytesD]
  have hmk : from_numpy (.bool shape elems) =
      .ok ⟨b64encodeStr (packbitsLE elems), shape, .bool⟩ := by
    simp only [from_numpy, mkTensorModel, hcheck, if_true]
  rw [hmk]
  have hdec : b64decodeModel (b64encodeStr (packbitsLE elems)) =
      some (packbitsLE elems) := b64decode_encode _ hblt
  have htake : ((packbitsLE elems).flatMap byteToBits).take shape.prod =
      elems := by
    rw [← hlen]
    exact unpack_pack elems
  show Except.bind _ _ = _
  simp only [Except.bind, to_numpy, hdec, htake]
  rw [if_pos (by simpa using hlen)]

/-- C1: for every NumPy array of element type float64, uint8, or bool (f64
elements modelled by their 64-bit patterns), of any rank at most 4 and any
size including the empty array, decoding the TensorRecord produced by
encoding it returns an array bit-for-bit equal to the original; boolean
arrays whose element count is not a multiple of 8 are included, their
trailing pad bits being discarded on decode. -/
theorem claim_C1_tensor_roundtrip (a : NpArray) (hwf : npWF a)
    (hrank : (npShape a).length ≤ 4) :
    (from_numpy a).bind to_numpy = .ok a := by
  cases a with
  | f64 shape elems =>
    simp only [npWF] at hwf
    exact roundtrip_f64 shape elems hwf.1 hwf.2
  | u8 shape elems =>
    simp only [npWF] at hwf
    exact roundtrip_u8 shape elems hwf.1 hwf.2
  | bool shape elems =>
    simp only [npWF] at hwf
    exact roundtrip_bool shape elems hwf

/-- Witness for C1: concrete round trips for each dtype, including an empty
uint8 array and a 5-element boolean array (not a multiple of 8 bits). -/
theorem claim_C1_tensor_roundtrip_witness :
    (from_numpy (.f64 [3] [1, 2, 70000])).bind to_numpy =
      .ok (.f64 [3] [1, 2, 70000])
    ∧ (from_numpy (.u8 [0] [])).bind to_numpy = .ok (.u8 [0] [])
    ∧ (from_numpy (.bool [5] [true, false, true, true, false])).bind
        to_numpy = .ok (.bool [5] [true, false, true, true, false]) :=
  ⟨claim_C1_tensor_roundtrip _
      (by simp only [npWF]; exact ⟨by decide, by decide⟩) (by decide),
   claim_C1_tensor_roundtrip _
      (by simp only [npWF]; exact ⟨by decide, by decide⟩) (by decide),
   claim_C1_tensor_roundtrip _ (by simp only [npWF]; decide) (by decide)⟩

/-- C2 fails as stated: the size validator never base-64-decodes, so
records whose data is not canonical base-64 defeat it. The record with
data `AAAAA` (length 5) is accepted for shape `[3]` dtype u8, and so is its
one-character truncation `AAAA`, refuting the truncation clause; the record
with data `AAAA!!!!` is accepted for shape `[6]` although its actual decoded
byte length is 3, refuting the exactly-when clause. -/
theorem claim_C2_counterexample :
    (mkTensorModel "AAAAA" [3] .u8).isOk = true
    ∧ (mkTensorModel "AAAA" [3] .u8).isOk = true
    ∧ (mkTensorModel "AAAA!!!!" [6] .u8).isOk = true
    ∧ b64decodeModel "AAAA!!!!" = some [0, 0, 0]
    ∧ nbytesD .u8 [6] = 6 := by decide

/-- C2 (amended): for TensorRecords whose data field is canonical padded
base-64 (i.e. the encoding of some byte string), construction fails with
MalformedTensor exactly when the decoded byte length differs from
`ceil(prod(shape) * bytes_per_element(dtype))`, and truncating the nonempty
data field of such a valid record by one character makes construction fail
with MalformedTensor. -/
theorem claim_C2_check_sizes (bs : List Nat) (shape : List Nat)
    (dtype : Dtype) (hb : ∀ b ∈ bs, b < 256) :
    b64decodeModel (b64encodeStr bs) = some bs
    ∧ (mkTensorModel (b64encodeStr bs) shape dtype =
        .error .malformedTensor ↔ bs.length ≠ nbytesD dtype shape)
    ∧ (bs ≠ [] → bs.length = nbytesD dtype shape →
        mkTensorModel (String.mk ((b64encodeCore bs).dropLast)) shape dtype =
          .error .malformedTensor) := by
  have heq : checkSizes ⟨b64encodeStr bs, shape, dtype⟩ =
      ((bs.length : Int) == (nbytesD dtype shape : Int)) := by
    unfold checkSizes
    rw [show (TensorModel.mk (b64encodeStr bs) shape dtype).data.data =
      b64encodeCore bs from rfl]
    rw [lenDataInt_encodeCore bs hb]
  refine ⟨b64decode_encode bs hb, ?_, ?_⟩
  · constructor
    · intro h hcon
      have hc : checkSizes ⟨b64encodeStr bs, shape, dtype⟩ = true := by
        rw [heq]
        exact beq_iff_eq.mpr (by exact_mod_cast hcon)
      simp only [mkTensorModel, hc, if_true] at h
      exact Except.noConfusion h
    · intro hne
      have hc : checkSizes ⟨b64encodeStr bs, shape, dtype⟩ = false := by
        rw [heq]
        simp only [beq_eq_false_iff_ne, ne_eq]
        intro hcast
        exact hne (by exact_mod_cast hcast)
      simp [mkTensorModel, hc]
  · intro hne hval
    have hld := lenDataInt_encodeCore_dropLast bs hb hne
    have hc : checkSizes ⟨String.mk ((b64encodeCore bs).dropLast), shape,
        dtype⟩ = false := by
      unfold checkSizes
      rw [show (TensorModel.mk (String.mk ((b64encodeCore bs).dropLast))
        shape dtype).data.data = (b64encodeCore bs).dropLast from rfl]
      simp only [beq_eq_false_iff_ne, ne_eq]
      intro hcast
      apply hld
      rw [hcast]
      exact_mod_cast congrArg (Nat.cast : Nat → Int) hval.symm
    simp [mkTensorModel, hc]

/-- Witness for C2 (amended), at the concrete byte string `[1, 2, 3]` with
shape `[3]` and dtype u8. -/
theorem claim_C2_check_sizes_witness :
    b64decodeModel (b64encodeStr [1, 2, 3]) = some [1, 2, 3]
    ∧ (mkTensorModel (b64encodeStr [1, 2, 3]) [3] .u8 =
        .error .malformedTensor ↔
        ([1, 2, 3] : List Nat).length ≠ nbytesD .u8 [3])
    ∧ (([1, 2, 3] : List Nat) ≠ [] →
        ([1, 2, 3] : List Nat).length = nbytesD .u8 [3] →
        mkTensorModel (String.mk ((b64encodeCore [1, 2, 3]).dropLast)) [3]
          .u8 = .error .malformedTensor) :=
  claim_C2_check_sizes [1, 2, 3] [3] .u8 (by decide)

/-! ## QPY circuit envelopes -/

/-- Modelled from the spec: the fixed-layout QPY file header
(`qiskit.qpy.formats.FILE_HEADER_V10`, an external collaborator) exposing
the two fields the validators read, `qpy_version` and `num_programs`. -/
structure QpyFileHeader where
  qpy_version : Nat
  num_programs : Nat
  deriving DecidableEq, Repr

/-- The modelled size in bytes of the fixed QPY file header: a 6-byte
preface, one version byte, three component-version bytes, and an 8-byte
big-endian program count. -/
def qpyHeaderSize : Nat := 18

/-- Recombination of big-endian bytes into a value. -/
def bytesToNatBE (l : List Nat) : Nat := l.foldl (fun acc b => acc * 256 + b) 0

/-- Modelled from the spec: parsing the fixed-layout QPY file header from
the first bytes of a payload (`struct.unpack` of `FILE_HEADER_V10_PACK`);
reading fails when fewer than `qpyHeaderSize` bytes are available, as
`struct.unpack` raises on a short buffer. -/
def parseQpyHeader (bytes : List Nat) : Except Err QpyFileHeader :=
  if bytes.length < qpyHeaderSize then .error .structError
  else .ok ⟨bytes.getD 6 0, bytesToNatBE ((bytes.drop 10).take 8)⟩

/-- Serialization of the modelled QPY file header followed by an arbitrary
body; used to build payloads whose header declares given fields. -/
def mkQpyPayload (version : Nat) (numPrograms : Nat) (body : List Nat) :
    List Nat :=
  [81, 73, 83, 75, 73, 84] ++ [version % 256] ++ [0, 0, 0] ++
    [0, 0, 0, 0, 0, 0, numPrograms / 256 % 256, numPrograms % 256] ++ body

/-- Model of the stored fields of `QpyModel`. -/
structure QpyModelData where
  circuit_b64 : String
  qpy_version : Nat
  deriving DecidableEq, Repr

/-- The header read by `QpyModel.cross_validate_qpy_version`: base-64
decode the payload and parse the fixed-size header from its first bytes. -/
def headerOfB64 (b64 : String) : Except Err QpyFileHeader :=
  match b64decodeModel b64 with
  | none => .error .base64DecodeError
  | some bytes => parseQpyHeader bytes

/-- Model of `QpyModel.cross_validate_qpy_version`: decode the payload,
read its header, and check that the declared version equals the header
version and that the payload holds exactly one program. -/
def qpyCrossValidate (m : QpyModelData) : Except Err Unit :=
  match headerOfB64 m.circuit_b64 with
  | .error e => .error e
  | .ok header =>
    if header.qpy_version ≠ m.qpy_version then .error .versionMismatch
    else if header.num_programs ≠ 1 then .error .unexpectedProgramCount
    else .ok ()

/-- Whether a declared version satisfies a pydantic `Field` bound with a
lower bound and an optional upper bound. -/
def versionFieldOk (lo : Nat) (hi : Option Nat) (v : Nat) : Bool :=
  lo ≤ v && (match hi with | none => true | some h => v ≤ h)

/-- Construction of a `QpyModel` with a version field bounded to the given
range: pydantic validates the field bound first (failure modelled as the
VersionOutOfRange error kind), then runs the model validator. -/
def mkQpyModelRange (lo : Nat) (hi : Option Nat) (b64 : String) (v : Nat) :
    Except Err QpyModelData :=
  if versionFieldOk lo hi v then
    match qpyCrossValidate ⟨b64, v⟩ with
    | .ok _ => .ok ⟨b64, v⟩
    | .error e => .error e
  else .error .versionOutOfRange

/-- Construction of the base `QpyModel` (field bound `ge=10`). -/
def mkQpyModel (b64 : String) (v : Nat) : Except Err QpyModelData :=
  mkQpyModelRange 10 none b64 v

/-- Construction of `QpyModelV13ToV16` (field bound `ge=13, le=16`). -/
def mkQpyModelV13ToV16 (b64 : String) (v : Nat) : Except Err QpyModelData :=
  mkQpyModelRange 13 (some 16) b64 v

/-- Construction of `QpyModelV13ToV17` (field bound `ge=13, le=17`). -/
def mkQpyModelV13ToV17 (b64 : String) (v : Nat) : Except Err QpyModelData :=
  mkQpyModelRange 13 (some 17) b64 v

/-- Modelled from the spec: the zlib compression pair, an external
collaborator assumed lossless and deterministic; only the round-trip law is
relevant to the claims, so it is modelled as the identity on byte lists. -/
def zlibDecompress (b : List Nat) : List Nat := b

/-- The header read by `_validate_qpy_version_range`: base-64 decode,
decompress, and parse the fixed-size header. -/
def typedHeaderOf (value : String) : Except Err QpyFileHeader :=
  match b64decodeModel value with
  | none => .error .base64DecodeError
  | some compressed => parseQpyHeader (zlibDecompress compressed)

/-- Model of `_validate_qpy_version_range` from
`typed_qpy_circuit_model.py`: base-64 decode, decompress, read the QPY
header, check the version range, then the program count. -/
def validateQpyVersionRange (value : String) (minV maxV : Nat) :
    Except Err Unit :=
  match typedHeaderOf value with
  | .error e => .error e
  | .ok header =>
    if header.qpy_version < minV ∨ maxV < header.qpy_version then
      .error .versionOutOfRange
    else if header.num_programs ≠ 1 then .error .unexpectedProgramCount
    else .ok ()

/-- Model of the stored fields of `TypedQpyCircuitModel` (the redundant
type tag is a fixed literal and is omitted). -/
structure TypedQpyCircuitModelData where
  value_ : String
  deriving DecidableEq, Repr

/-- Construction of `TypedQpyCircuitModelV13to17`, running its
`validate_qpy_version` model validator with bounds 13 and 17. -/
def mkTypedQpyCircuitModelV13to17 (value : String) :
    Except Err TypedQpyCircuitModelData :=
  match validateQpyVersionRange value 13 17 with
  | .ok _ => .ok ⟨value⟩
  | .error e => .error e

/-- Model of `QpyModel` together with its lazily cached decoded circuit
(the `_circuit` private attribute); the circuit type is abstract since the
decoded object is owned by the external circuit library. -/
structure QpyModelCached (C : Type) where
  circuit_b64 : String
  qpy_version : Nat
  circuit : Option C

/-- Model of `QpyModel.to_quantum_circuit`: when `use_cached` is false or no
cached instance exists, decode `circuit_b64` with the external loader and
store the result; then return the stored instance. The returned triple is
the result, the updated model state, and whether `circuit_b64` was decoded.
-/
def toQuantumCircuit {C : Type} (load : String → C) (m : QpyModelCached C)
    (use_cached : Bool) : C × QpyModelCached C × Bool :=
  if use_cached then
    match m.circuit with
    | some c => (c, m, false)
    | none =>
      (load m.circuit_b64,
       ⟨m.circuit_b64, m.qpy_version, some (load m.circuit_b64)⟩, true)
  else
    (load m.circuit_b64,
     ⟨m.circuit_b64, m.qpy_version, some (load m.circuit_b64)⟩, true)

/-- Model of `QpyModel.from_quantum_circuit`: serialize the circuit with the
external encoder at the requested version, construct the model (running its
validators), and store the provided circuit in the cache slot. -/
def fromQuantumCircuit {C : Type} (dump : C → Nat → String) (c : C)
    (v : Nat) : Except Err (QpyModelCached C) :=
  match mkQpyModel (dump c v) v with
  | .ok _ => .ok ⟨dump c v, v, some c⟩
  | .error e => .error e

/-! ## QPY envelope computation lemmas -/

theorem headerOfB64_some (b64 : String) (bytes : List Nat)
    (hdec : b64decodeModel b64 = some bytes) :
    headerOfB64 b64 = parseQpyHeader bytes := by
  unfold headerOfB64
  rw [hdec]

theorem qpyCrossValidate_of_header (m : QpyModelData) (h : QpyFileHeader)
    (hh : headerOfB64 m.circuit_b64 = .ok h) :
    qpyCrossValidate m =
      (if h.qpy_version ≠ m.qpy_version then .error .versionMismatch
       else if h.num_programs ≠ 1 then .error .unexpectedProgramCount
       else .ok ()) := by
  unfold qpyCrossValidate
  rw [hh]

theorem typedHeaderOf_some (value : String) (bytes : List Nat)
    (hdec : b64decodeModel value = some bytes) :
    typedHeaderOf value = parseQpyHeader (zlibDecompress bytes) := by
  unfold typedHeaderOf
  rw [hdec]

theorem validateQpyVersionRange_of_header (value : String) (minV maxV : Nat)
    (h : QpyFileHeader) (hh : typedHeaderOf value = .ok h) :
    validateQpyVersionRange value minV maxV =
      (if h.qpy_version < minV ∨ maxV < h.qpy_version then
        .error .versionOutOfRange
       else if h.num_programs ≠ 1 then .error .unexpectedProgramCount
       else .ok ()) := by
  unfold validateQpyVersionRange
  rw [hh]

/-! ## QPY envelope claims -/

/-- C4: constructing the circuit-envelope variant bounded to QPY versions
13 to 16 from a payload whose header declares version 17 (with the matching
declared field) fails with the version-out-of-range field error, while
otherwise-valid payloads declaring versions 13 or 16 both construct
successfully. -/
theorem claim_C4_qpy_v13_to_v16_gate (bytes : List Nat) (h : QpyFileHeader)
    (hp : parseQpyHeader bytes = .ok h) (hb : ∀ x ∈ bytes, x < 256) :
    (h.qpy_version = 17 →
      mkQpyModelV13ToV16 (b64encodeStr bytes) 17 =
        .error .versionOutOfRange)
    ∧ (h.num_programs = 1 → (h.qpy_version = 13 ∨ h.qpy_version = 16) →
      mkQpyModelV13ToV16 (b64encodeStr bytes) h.qpy_version =
        .ok ⟨b64encodeStr bytes, h.qpy_version⟩) := by
  constructor
  · intro _
    simp [mkQpyModelV13ToV16, mkQpyModelRange, versionFieldOk]
  · intro hcount hv
    have hfield : versionFieldOk 13 (some 16) h.qpy_version = true := by
      rcases hv with h13 | h16
      · simp [versionFieldOk, h13]
      · simp [versionFieldOk, h16]
    have hh : headerOfB64 (b64encodeStr bytes) = .ok h := by
      rw [headerOfB64_some _ bytes (b64decode_encode bytes hb), hp]
    have hcv : qpyCrossValidate ⟨b64encodeStr bytes, h.qpy_version⟩ =
        .ok () := by
      rw [qpyCrossValidate_of_header _ h hh]
      rw [if_neg (by simp), if_neg (by simp [hcount])]
    simp only [mkQpyModelV13ToV16, mkQpyModelRange, hfield, if_true, hcv]

/-- Witness for C4: a version-17 payload is rejected with the out-of-range
error, and version-13 and version-16 payloads are both accepted. -/
theorem claim_C4_qpy_v13_to_v16_gate_witness :
    mkQpyModelV13ToV16 (b64encodeStr (mkQpyPayload 17 1 [])) 17 =
      .error .versionOutOfRange
    ∧ mkQpyModelV13ToV16 (b64encodeStr (mkQpyPayload 13 1 [])) 13 =
      .ok ⟨b64encodeStr (mkQpyPayload 13 1 []), 13⟩
    ∧ mkQpyModelV13ToV16 (b64encodeStr (mkQpyPayload 16 1 [])) 16 =
      .ok ⟨b64encodeStr (mkQpyPayload 16 1 []), 16⟩ :=
  ⟨(claim_C4_qpy_v13_to_v16_gate (mkQpyPayload 17 1 []) ⟨17, 1⟩ rfl
      (by decide)).1 rfl,
   (claim_C4_qpy_v13_to_v16_gate (mkQpyPayload 13 1 []) ⟨13, 1⟩ rfl
      (by decide)).2 rfl (Or.inl rfl),
   (claim_C4_qpy_v13_to_v16_gate (mkQpyPayload 16 1 []) ⟨16, 1⟩ rfl
      (by decide)).2 rfl (Or.inr rfl)⟩

/-- C5 fails as stated: a payload declaring program count 2 together with an
out-of-range version (here 18) is rejected by the typed circuit envelope
with the version error, not with UnexpectedProgramCount, because
`_validate_qpy_version_range` checks the version range first. -/
theorem claim_C5_counterexample :
    parseQpyHeader (mkQpyPayload 18 2 []) = .ok ⟨18, 2⟩
    ∧ mkTypedQpyCircuitModelV13to17 (b64encodeStr (mkQpyPayload 18 2 [])) =
        .error .versionOutOfRange := ⟨rfl, rfl⟩

/-- C5 (amended): a circuit-envelope payload whose header declares a program
count different from 1 fails with UnexpectedProgramCount provided its
declared version passes the version check that runs first (within 13..17
for the typed variant; equal to the declared field and at least 10 for
`QpyModel`); with an out-of-range version, construction still fails but
with the version error. -/
theorem claim_C5_program_count_gate (bytes : List Nat) (h : QpyFileHeader)
    (hp : parseQpyHeader bytes = .ok h) (hb : ∀ x ∈ bytes, x < 256)
    (hcount : h.num_programs ≠ 1) :
    (13 ≤ h.qpy_version → h.qpy_version ≤ 17 →
      mkTypedQpyCircuitModelV13to17 (b64encodeStr bytes) =
        .error .unexpectedProgramCount)
    ∧ (10 ≤ h.qpy_version →
      mkQpyModel (b64encodeStr bytes) h.qpy_version =
        .error .unexpectedProgramCount) := by
  constructor
  · intro h13 h17
    have hh : typedHeaderOf (b64encodeStr bytes) = .ok h := by
      rw [typedHeaderOf_some _ bytes (b64decode_encode bytes hb)]
      show parseQpyHeader bytes = .ok h
      exact hp
    have hval : validateQpyVersionRange (b64encodeStr bytes) 13 17 =
        .error .unexpectedProgramCount := by
      rw [validateQpyVersionRange_of_header _ 13 17 h hh]
      rw [if_neg (by omega), if_pos hcount]
    simp only [mkTypedQpyCircuitModelV13to17, hval]
  · intro h10
    have hfield : versionFieldOk 10 none h.qpy_version = true := by
      simp [versionFieldOk, h10]
    have hh : headerOfB64 (b64encodeStr bytes) = .ok h := by
      rw [headerOfB64_some _ bytes (b64decode_encode bytes hb), hp]
    have hcv : qpyCrossValidate ⟨b64encodeStr bytes, h.qpy_version⟩ =
        .error .unexpectedProgramCount := by
      rw [qpyCrossValidate_of_header _ h hh]
      rw [if_neg (by simp), if_pos hcount]
    simp only [mkQpyModel, mkQpyModelRange, hfield, if_true, hcv]

/-- Witness for C5 (amended): a version-14 payload declaring two programs
is rejected with UnexpectedProgramCount by both envelope constructors. -/
theorem claim_C5_program_count_gate_witness :
    mkTypedQpyCircuitModelV13to17 (b64encodeStr (mkQpyPayload 14 2 [])) =
      .error .unexpectedProgramCount
    ∧ mkQpyModel (b64encodeStr (mkQpyPayload 14 2 [])) 14 =
      .error .unexpectedProgramCount :=
  ⟨(claim_C5_program_count_gate (mkQpyPayload 14 2 []) ⟨14, 2⟩ rfl
      (by decide) (by decide)).1 (by decide) (by decide),
   (claim_C5_program_count_gate (mkQpyPayload 14 2 []) ⟨14, 2⟩ rfl
      (by decide) (by decide)).2 (by decide)⟩

/-- C6 fails as stated: when the declared field (here 5) diverges from the
header version (here 13) but also violates the field bound `ge=10`,
construction fails with the field-level out-of-range error, not with
VersionMismatch. -/
theorem claim_C6_counterexample :
    parseQpyHeader (mkQpyPayload 13 1 []) = .ok ⟨13, 1⟩
    ∧ (⟨13, 1⟩ : QpyFileHeader).qpy_version ≠ 5
    ∧ mkQpyModel (b64encodeStr (mkQpyPayload 13 1 [])) 5 =
        .error .versionOutOfRange := ⟨rfl, by decide, rfl⟩

/-- C6 (amended): every successfully constructed `QpyModel` has its
`qpy_version` field equal to the version declared in the decoded payload
header; whenever the two diverge and the declared field satisfies its own
field bound (`ge=10`), construction fails with VersionMismatch (below 10 it
fails with the field-level range error instead). -/
theorem claim_C6_redundant_version (b64 : String) (v : Nat) :
    (∀ m, mkQpyModel b64 v = .ok m →
      m.qpy_version = v ∧
      ∃ h, headerOfB64 b64 = .ok h ∧ h.qpy_version = v)
    ∧ (∀ h, headerOfB64 b64 = .ok h → h.qpy_version ≠ v → 10 ≤ v →
      mkQpyModel b64 v = .error .versionMismatch) := by
  constructor
  · intro m hm
    simp only [mkQpyModel, mkQpyModelRange] at hm
    split at hm
    case isFalse => exact absurd hm (by simp)
    case isTrue hf =>
      cases hcv : qpyCrossValidate ⟨b64, v⟩ with
      | error e => rw [hcv] at hm; exact absurd hm (by simp)
      | ok u =>
        rw [hcv] at hm
        simp only [Except.ok.injEq] at hm
        subst hm
        cases hh : headerOfB64 b64 with
        | error e =>
          unfold qpyCrossValidate at hcv
          rw [hh] at hcv
          exact absurd hcv (by simp)
        | ok h =>
          rw [qpyCrossValidate_of_header _ h hh] at hcv
          by_cases hv : h.qpy_version = v
          · exact ⟨rfl, h, rfl, hv⟩
          · rw [if_pos (by exact hv)] at hcv
            exact absurd hcv (by simp)
  · intro h hh hne h10
    have hf : versionFieldOk 10 none v = true := by
      simp [versionFieldOk, h10]
    have hcv : qpyCrossValidate ⟨b64, v⟩ = .error .versionMismatch := by
      rw [qpyCrossValidate_of_header _ h hh]
      exact if_pos hne
    simp only [mkQpyModel, mkQpyModelRange, hf, if_true, hcv]

/-- Witness for C6 (amended): declared field 14 against a header declaring
13 is rejected with VersionMismatch. -/
theorem claim_C6_redundant_version_witness :
    mkQpyModel (b64encodeStr (mkQpyPayload 13 1 [])) 14 =
      .error .versionMismatch :=
  (claim_C6_redundant_version (b64encodeStr (mkQpyPayload 13 1 [])) 14).2
    ⟨13, 1⟩ rfl (by decide) (by decide)

/-- C9: after constructing an envelope with `from_quantum_circuit`, calling
`to_quantum_circuit` with `use_cached` true returns exactly the circuit
that was passed in, with the model state unchanged and without decoding the
stored bytes; more generally whenever `use_cached` is true and a cached
instance exists, it is returned without touching `circuit_b64` (the third
component of the result records whether `circuit_b64` was decoded). -/
theorem claim_C9_cached_decode {C : Type} (load : String → C)
    (dump : C → Nat → String) (c : C) (v : Nat) (m : QpyModelCached C) :
    (fromQuantumCircuit dump c v = .ok m →
      toQuantumCircuit load m true = (c, m, false))
    ∧ (∀ c0, m.circuit = some c0 →
      toQuantumCircuit load m true = (c0, m, false)) := by
  constructor
  · intro hm
    unfold fromQuantumCircuit at hm
    cases hmk : mkQpyModel (dump c v) v with
    | error e => rw [hmk] at hm; exact absurd hm (by simp)
    | ok q =>
      rw [hmk] at hm
      simp only [Except.ok.injEq] at hm
      subst hm
      rfl
  · intro c0 h0
    cases m with
    | mk b64 v0 cache =>
      simp only at h0
      subst h0
      rfl

/-- Witness for C9: a concrete envelope built from the circuit `7` (with a
loader returning `0`, so a decode would be visible) returns `7` from the
cache without decoding. -/
theorem claim_C9_cached_decode_witness :
    toQuantumCircuit (fun _ => (0 : Nat))
      ⟨b64encodeStr (mkQpyPayload 13 1 []), 13, some 7⟩ true =
      (7, ⟨b64encodeStr (mkQpyPayload 13 1 []), 13, some 7⟩, false) :=
  (claim_C9_cached_decode (fun _ => (0 : Nat))
    (fun _ _ => b64encodeStr (mkQpyPayload 13 1 [])) 7 13
    ⟨b64encodeStr (mkQpyPayload 13 1 []), 13, some 7⟩).1 rfl

/-! ## SamplexModel -/

/-- Attempted match of the version-token pattern at the start of a
character stream: the model of the regular expression searched by
`SamplexModel.cross_validate_ssv_version`, which requires a quoted `ssv`
key (allowing escaping backslashes before each closing quote), a colon,
an opening quote, and at least one digit, whose maximal run is captured. -/
def matchSsvAt (cs : List Char) : Option Nat :=
  match cs with
  | '"' :: 's' :: 's' :: 'v' :: rest =>
    match rest.dropWhile (fun c => c == '\\') with
    | '"' :: ':' :: r3 =>
      match r3.dropWhile (fun c => c == '\\') with
      | '"' :: r5 =>
        let ds := r5.takeWhile Char.isDigit
        if ds.isEmpty then none
        else some (ds.foldl (fun acc c => acc * 10 + (c.toNat - 48)) 0)
      | _ => none
    | _ => none
  | _ => none

/-- Model of `re.search` for the version-token pattern: the leftmost
position at which the pattern matches, if any. -/
def findSsvToken : List Char → Option Nat
  | [] => none
  | c :: rest =>
    match matchSsvAt (c :: rest) with
    | some v => some v
    | none => findSsvToken rest

/-- Model of the stored fields of `SamplexModel`. -/
structure SamplexModelData where
  ssv : Nat
  samplex_json : String
  deriving DecidableEq, Repr

/-- Model of `SamplexModel.cross_validate_ssv_version`: locate the version
token in the raw JSON text by the textual pattern search; absence is the
VersionTokenMissing failure, and disagreement with the declared `ssv` field
is the VersionMismatch failure. -/
def samplexCrossValidate (m : SamplexModelData) : Except Err Unit :=
  match findSsvToken m.samplex_json.data with
  | none => .error .versionTokenMissing
  | some v => if m.ssv ≠ v then .error .versionMismatch else .ok ()

/-- Construction of a `SamplexModel` with an `ssv` field bounded to the
given range: pydantic validates the field bound first (failure modelled as
the VersionOutOfRange error kind), then runs the model validator. -/
def mkSamplexModelRange (lo : Nat) (hi : Option Nat) (json : String)
    (ssv : Nat) : Except Err SamplexModelData :=
  if versionFieldOk lo hi ssv then
    match samplexCrossValidate ⟨ssv, json⟩ with
    | .ok _ => .ok ⟨ssv, json⟩
    | .error e => .error e
  else .error .versionOutOfRange

/-- Construction of the base `SamplexModel` (field bound `ge=1`). -/
def mkSamplexModel (json : String) (ssv : Nat) :
    Except Err SamplexModelData :=
  mkSamplexModelRange 1 none json ssv

/-- Construction of `SamplexModelSSV1` (field bound `ge=1, le=1`). -/
def mkSamplexModelSSV1 (json : String) (ssv : Nat) :
    Except Err SamplexModelData :=
  mkSamplexModelRange 1 (some 1) json ssv

/-- Construction of `SamplexModelSSV1ToSSV2` (field bound `ge=1, le=2`). -/
def mkSamplexModelSSV1ToSSV2 (json : String) (ssv : Nat) :
    Except Err SamplexModelData :=
  mkSamplexModelRange 1 (some 2) json ssv

/-- C7 fails as stated: with a declared `ssv` of 0 (violating the base
model's own `ge=1` field bound) and a JSON text without any locatable
token, construction fails with the field-level range error, not with
VersionTokenMissing; the token check never runs. -/
theorem claim_C7_counterexample :
    findSsvToken ("42").data = none
    ∧ mkSamplexModel "42" 0 = .error .versionOutOfRange := ⟨rfl, rfl⟩

/-- C7 (amended): for a declared `ssv` satisfying the base model's field
bound (`1 ≤ ssv`), SamplexModel construction fails with VersionTokenMissing
exactly when no version token is locatable in the raw JSON text by the
textual key-pattern search, fails with VersionMismatch when the located
integer differs from the declared field, and succeeds when it agrees; for
the bounded variants (`ssv` in 1..1 or 1..2), an out-of-range `ssv` fails
the field-level range check regardless of the JSON text, before the
token-match check runs. -/
theorem claim_C7_samplex_ssv (json : String) (ssv : Nat) (h1 : 1 ≤ ssv) :
    (findSsvToken json.data = none →
      mkSamplexModel json ssv = .error .versionTokenMissing)
    ∧ (∀ v, findSsvToken json.data = some v → v ≠ ssv →
      mkSamplexModel json ssv = .error .versionMismatch)
    ∧ (∀ v, findSsvToken json.data = some v → v = ssv →
      mkSamplexModel json ssv = .ok ⟨ssv, json⟩)
    ∧ (2 ≤ ssv → mkSamplexModelSSV1 json ssv = .error .versionOutOfRange)
    ∧ (3 ≤ ssv →
      mkSamplexModelSSV1ToSSV2 json ssv = .error .versionOutOfRange) := by
  have hf : versionFieldOk 1 none ssv = true := by
    simp [versionFieldOk, h1]
  refine ⟨?_, ?_, ?_, ?_, ?_⟩
  · intro hnone
    have hcv : samplexCrossValidate ⟨ssv, json⟩ =
        .error .versionTokenMissing := by
      unfold samplexCrossValidate
      rw [hnone]
    simp only [mkSamplexModel, mkSamplexModelRange, hf, if_true, hcv]
  · intro v hv hne
    have hcv : samplexCrossValidate ⟨ssv, json⟩ =
        .error .versionMismatch := by
      unfold samplexCrossValidate
      rw [hv]
      exact if_pos (Ne.symm hne)
    simp only [mkSamplexModel, mkSamplexModelRange, hf, if_true, hcv]
  · intro v hv heq
    have hcv : samplexCrossValidate ⟨ssv, json⟩ = .ok () := by
      unfold samplexCrossValidate
      rw [hv]
      exact if_neg (fun hc => hc heq.symm)
    simp only [mkSamplexModel, mkSamplexModelRange, hf, if_true, hcv]
  · intro h2
    have hf1 : versionFieldOk 1 (some 1) ssv = false := by
      simp only [versionFieldOk]
      simp
      omega
    simp [mkSamplexModelSSV1, mkSamplexModelRange, hf1]
  · intro h3
    have hf2 : versionFieldOk 1 (some 2) ssv = false := by
      simp only [versionFieldOk]
      simp
      omega
    simp [mkSamplexModelSSV1ToSSV2, mkSamplexModelRange, hf2]

/-- Witness for C7 (amended): a JSON text carrying the token `"ssv":"1"`
yields VersionTokenMissing on tokenless text, VersionMismatch against a
declared field of 2, success against 1, and the bounded variants reject
out-of-range declared fields. -/
theorem claim_C7_samplex_ssv_witness :
    mkSamplexModel "x" 1 = .error .versionTokenMissing
    ∧ mkSamplexModel "\"ssv\":\"1\"" 2 = .error .versionMismatch
    ∧ mkSamplexModel "\"ssv\":\"1\"" 1 = .ok ⟨1, "\"ssv\":\"1\""⟩
    ∧ mkSamplexModelSSV1 "\"ssv\":\"2\"" 2 = .error .versionOutOfRange
    ∧ mkSamplexModelSSV1ToSSV2 "\"ssv\":\"3\"" 3 =
        .error .versionOutOfRange :=
  ⟨(claim_C7_samplex_ssv "x" 1 (by decide)).1 rfl,
   (claim_C7_samplex_ssv "\"ssv\":\"1\"" 2 (by decide)).2.1 1 rfl
     (by decide),
   (claim_C7_samplex_ssv "\"ssv\":\"1\"" 1 (by decide)).2.2.1 1 rfl rfl,
   (claim_C7_samplex_ssv "\"ssv\":\"2\"" 2 (by decide)).2.2.2.1 (by decide),
   (claim_C7_samplex_ssv "\"ssv\":\"3\"" 3 (by decide)).2.2.2.2
     (by decide)⟩

/-! ## Executor program items (version 0.2) -/

/-- Modelled from the spec: the decoded quantum circuit, an opaque external
object of which the validators only read the declared parameter count. -/
structure CircuitObj where
  num_parameters : Nat
  deriving DecidableEq, Repr

/-- Modelled from the spec: one output specification of a decoded samplex,
of which the validators only read the shape. -/
structure SamplexSpecObj where
  shape : List Nat
  deriving DecidableEq, Repr

/-- Modelled from the spec: the decoded samplex, an opaque external object
of which the validators only read `outputs().get_specs("parameter_values")`,
stored here as the resulting list of output specifications. -/
structure SamplexObj where
  parameter_values_specs : List SamplexSpecObj
  deriving DecidableEq, Repr

/-- The `chunk_size` field: a positive integer or the `auto` sentinel. -/
inductive ChunkSize
  | auto
  | int (n : Nat)
  deriving DecidableEq, Repr

/-- The pydantic field bound on `chunk_size` (`ge=1` on the integer arm). -/
def chunkFieldOk : ChunkSize → Bool
  | .auto => true
  | .int n => 1 ≤ n

/-- Model of the stored fields of `CircuitItemModel` (the literal
`item_type` discriminator is fixed and omitted); the nested `circuit` and
`circuit_arguments` fields hold already-validated model instances, which
pydantic does not revalidate. -/
structure CircuitItemModelData where
  circuit : QpyModelData
  circuit_arguments : TensorModel
  chunk_size : ChunkSize
  deriving DecidableEq, Repr

/-- The trailing dimension used by `CircuitItemModel.cross_validate`:
`shape[-1]` when the shape is nonempty, otherwise 0. -/
def trailingDim (shape : List Nat) : Nat := (shape.getLast?).getD 0

/-- Construction of a `CircuitItemModel` from validated sub-model
instances: pydantic checks the `chunk_size` field bound, then
`cross_validate` decodes the circuit (through the external loader `load`)
and compares its parameter count with the trailing dimension of the
argument tensor's shape. -/
def mkCircuitItemModel (load : String → CircuitObj)
    (m : CircuitItemModelData) : Except Err CircuitItemModelData :=
  if chunkFieldOk m.chunk_size then
    if trailingDim m.circuit_arguments.shape ≠
        (load m.circuit.circuit_b64).num_parameters then
      .error .parameterCountMismatch
    else .ok m
  else .error .fieldOutOfRange

/-- Model of the stored fields of `SamplexItemModel`; the
`samplex_arguments` mapping and the broadcast `shape` field are carried but
not read by the modelled validator. -/
structure SamplexItemModelData where
  circuit : QpyModelData
  samplex : SamplexModelData
  shape : List Nat
  chunk_size : ChunkSize
  deriving DecidableEq, Repr

/-- The samplex-side parameter count of `SamplexItemModel.cross_validate`:
the trailing dimension of the first `parameter_values` output spec, 0 when
no spec is present; reading `shape[-1]` of an empty spec shape raises an
IndexError in the source, modelled as the IndexError kind. -/
def samplexTrailingDim (s : SamplexObj) : Except Err Nat :=
  match s.parameter_values_specs with
  | [] => .ok 0
  | spec :: _ =>
    match spec.shape.getLast? with
    | none => .error .indexError
    | some d => .ok d

/-- Construction of a `SamplexItemModel` from validated sub-model
instances: pydantic checks the `chunk_size` field bound, then
`cross_validate` decodes the circuit and the samplex (through the external
loaders) and compares the circuit's parameter count with the samplex's
declared `parameter_values` trailing dimension. -/
def mkSamplexItemModel (loadC : String → CircuitObj)
    (loadS : String → SamplexObj) (m : SamplexItemModelData) :
    Except Err SamplexItemModelData :=
  if chunkFieldOk m.chunk_size then
    match samplexTrailingDim (loadS m.samplex.samplex_json) with
    | .error e => .error e
    | .ok d =>
      if d ≠ (loadC m.circuit.circuit_b64).num_parameters then
        .error .parameterCountMismatch
      else .ok m
  else .error .fieldOutOfRange

/-- C3: a circuit program item fails with ParameterCountMismatch exactly
when the trailing dimension of the argument tensor's shape (0 when the
shape is empty) differs from the decoded circuit's parameter count, and a
samplex program item fails with ParameterCountMismatch exactly when the
trailing dimension of the samplex's declared `parameter_values` output
spec (0 when absent) differs from the decoded circuit's parameter count;
stated for items whose `chunk_size` field passes its own bound and whose
samplex spec shape, when a spec is present, is nonempty. -/
theorem claim_C3_parameter_count (loadC : String → CircuitObj)
    (loadS : String → SamplexObj) (ci : CircuitItemModelData)
    (si : SamplexItemModelData) (dS : Nat)
    (hci : chunkFieldOk ci.chunk_size = true)
    (hsi : chunkFieldOk si.chunk_size = true)
    (hspec : samplexTrailingDim (loadS si.samplex.samplex_json) = .ok dS) :
    (mkCircuitItemModel loadC ci = .error .parameterCountMismatch ↔
      trailingDim ci.circuit_arguments.shape ≠
        (loadC ci.circuit.circuit_b64).num_parameters)
    ∧ (mkCircuitItemModel loadC ci = .ok ci ↔
      trailingDim ci.circuit_arguments.shape =
        (loadC ci.circuit.circuit_b64).num_parameters)
    ∧ (mkSamplexItemModel loadC loadS si =
        .error .parameterCountMismatch ↔
      dS ≠ (loadC si.circuit.circuit_b64).num_parameters)
    ∧ (mkSamplexItemModel loadC loadS si = .ok si ↔
      dS = (loadC si.circuit.circuit_b64).num_parameters) := by
  refine ⟨?_, ?_, ?_, ?_⟩
  · unfold mkCircuitItemModel
    rw [if_pos hci]
    by_cases hne : trailingDim ci.circuit_arguments.shape ≠
        (loadC ci.circuit.circuit_b64).num_parameters
    · rw [if_pos hne]
      simp [hne]
    · rw [if_neg hne]
      simp [hne]
  · unfold mkCircuitItemModel
    rw [if_pos hci]
    by_cases hne : trailingDim ci.circuit_arguments.shape ≠
        (loadC ci.circuit.circuit_b64).num_parameters
    · rw [if_pos hne]
      simp [hne]
    · rw [if_neg hne]
      push_neg at hne
      simp [hne]
  · unfold mkSamplexItemModel
    rw [if_pos hsi, hspec]
    show (if dS ≠ (loadC si.circuit.circuit_b64).num_parameters then
      (.error .parameterCountMismatch : Except Err SamplexItemModelData)
      else .ok si) = .error .parameterCountMismatch ↔ _
    by_cases hne : dS ≠ (loadC si.circuit.circuit_b64).num_parameters
    · rw [if_pos hne]
      simp [hne]
    · rw [if_neg hne]
      simp [hne]
  · unfold mkSamplexItemModel
    rw [if_pos hsi, hspec]
    show (if dS ≠ (loadC si.circuit.circuit_b64).num_parameters then
      (.error .parameterCountMismatch : Except Err SamplexItemModelData)
      else .ok si) = .ok si ↔ _
    by_cases hne : dS ≠ (loadC si.circuit.circuit_b64).num_parameters
    · rw [if_pos hne]
      simp [hne]
    · rw [if_neg hne]
      push_neg at hne
      simp [hne]

/-- Witness for C3: with a circuit declaring 3 parameters, an argument
tensor of shape `(5, 3)` validates, shape `(5, 2)` fails with
ParameterCountMismatch, a rank-0 tensor is counted as 0 parameters and
fails, and a samplex spec of shape `(5, 3)` validates while shape `(5, 2)`
fails. -/
theorem claim_C3_parameter_count_witness :
    mkCircuitItemModel (fun _ => ⟨3⟩)
      ⟨⟨"q", 13⟩, ⟨"d", [5, 3], .f64⟩, .auto⟩ =
      .ok ⟨⟨"q", 13⟩, ⟨"d", [5, 3], .f64⟩, .auto⟩
    ∧ mkCircuitItemModel (fun _ => ⟨3⟩)
      ⟨⟨"q", 13⟩, ⟨"d", [5, 2], .f64⟩, .auto⟩ =
      .error .parameterCountMismatch
    ∧ mkCircuitItemModel (fun _ => ⟨3⟩)
      ⟨⟨"q", 13⟩, ⟨"d", [], .f64⟩, .auto⟩ =
      .error .parameterCountMismatch
    ∧ mkSamplexItemModel (fun _ => ⟨3⟩) (fun _ => ⟨[⟨[5, 3]⟩]⟩)
      ⟨⟨"q", 13⟩, ⟨1, "s"⟩, [5], .auto⟩ =
      .ok ⟨⟨"q", 13⟩, ⟨1, "s"⟩, [5], .auto⟩
    ∧ mkSamplexItemModel (fun _ => ⟨3⟩) (fun _ => ⟨[⟨[5, 2]⟩]⟩)
      ⟨⟨"q", 13⟩, ⟨1, "s"⟩, [5], .auto⟩ =
      .error .parameterCountMismatch :=
  ⟨(claim_C3_parameter_count (fun _ => ⟨3⟩) (fun _ => ⟨[]⟩)
      ⟨⟨"q", 13⟩, ⟨"d", [5, 3], .f64⟩, .auto⟩
      ⟨⟨"q", 13⟩, ⟨1, "s"⟩, [5], .auto⟩ 0 rfl rfl rfl).2.1.mpr rfl,
   (claim_C3_parameter_count (fun _ => ⟨3⟩) (fun _ => ⟨[]⟩)
      ⟨⟨"q", 13⟩, ⟨"d", [5, 2], .f64⟩, .auto⟩
      ⟨⟨"q", 13⟩, ⟨1, "s"⟩, [5], .auto⟩ 0 rfl rfl rfl).1.mpr (by decide),
   (claim_C3_parameter_count (fun _ => ⟨3⟩) (fun _ => ⟨[]⟩)
      ⟨⟨"q", 13⟩, ⟨"d", [], .f64⟩, .auto⟩
      ⟨⟨"q", 13⟩, ⟨1, "s"⟩, [5], .auto⟩ 0 rfl rfl rfl).1.mpr (by decide),
   (claim_C3_parameter_count (fun _ => ⟨3⟩) (fun _ => ⟨[⟨[5, 3]⟩]⟩)
      ⟨⟨"q", 13⟩, ⟨"d", [5, 3], .f64⟩, .auto⟩
      ⟨⟨"q", 13⟩, ⟨1, "s"⟩, [5], .auto⟩ 3 rfl rfl rfl).2.2.2.mpr rfl,
   (claim_C3_parameter_count (fun _ => ⟨3⟩) (fun _ => ⟨[⟨[5, 2]⟩]⟩)
      ⟨⟨"q", 13⟩, ⟨"d", [5, 3], .f64⟩, .auto⟩
      ⟨⟨"q", 13⟩, ⟨1, "s"⟩, [5], .auto⟩ 2 rfl rfl rfl).2.2.1.mpr
     (by decide)⟩

/-! ## Quantum program model -/

/-- A program item: the discriminated union of circuit and samplex items. -/
inductive ProgramItemData
  | circuit (c : CircuitItemModelData)
  | samplex (s : SamplexItemModelData)
  deriving DecidableEq, Repr

/-- The `chunk_size` declared by a program item. -/
def ProgramItemData.chunk_size : ProgramItemData → ChunkSize
  | .circuit c => c.chunk_size
  | .samplex s => s.chunk_size

/-- Model of the stored fields of `QuantumProgramModel`. -/
structure QuantumProgramModelData where
  shots : Nat
  items : List ProgramItemData
  deriving DecidableEq, Repr

/-- Construction of a `QuantumProgramModel` from validated item instances:
pydantic checks the `shots` field bound (`ge=1`), then
`check_chunk_sizes_are_consistent` collects the set of chunk sizes (here
`dedup` of the list) and fails when it contains the sentinel together with
any other value. -/
def mkQuantumProgramModel (m : QuantumProgramModelData) :
    Except Err QuantumProgramModelData :=
  if 1 ≤ m.shots then
    if ChunkSize.auto ∈ m.items.map ProgramItemData.chunk_size ∧
        1 < (m.items.map ProgramItemData.chunk_size).dedup.length then
      .error .inconsistentChunking
    else .ok m
  else .error .fieldOutOfRange

/-- C8: in every successfully constructed quantum program, either all
items declare the `auto` sentinel or none does (so all are explicit
integers); a two-item batch mixing an explicit size with the sentinel fails
with InconsistentChunking, while `[2, 2]` and `[auto, auto]` both
construct. -/
theorem claim_C8_chunk_consistency (m : QuantumProgramModelData)
    (hs : 1 ≤ m.shots) :
    (∀ p, mkQuantumProgramModel m = .ok p →
      (∀ i ∈ m.items, i.chunk_size = .auto) ∨
      (∀ i ∈ m.items, i.chunk_size ≠ .auto))
    ∧ mkQuantumProgramModel ⟨1,
      [.circuit ⟨⟨"q", 13⟩, ⟨"d", [], .f64⟩, .int 2⟩,
       .circuit ⟨⟨"q", 13⟩, ⟨"d", [], .f64⟩, .auto⟩]⟩ =
      .error .inconsistentChunking
    ∧ mkQuantumProgramModel ⟨1,
      [.circuit ⟨⟨"q", 13⟩, ⟨"d", [], .f64⟩, .int 2⟩,
       .circuit ⟨⟨"q", 13⟩, ⟨"d", [], .f64⟩, .int 2⟩]⟩ =
      .ok ⟨1, [.circuit ⟨⟨"q", 13⟩, ⟨"d", [], .f64⟩, .int 2⟩,
       .circuit ⟨⟨"q", 13⟩, ⟨"d", [], .f64⟩, .int 2⟩]⟩
    ∧ mkQuantumProgramModel ⟨1,
      [.circuit ⟨⟨"q", 13⟩, ⟨"d", [], .f64⟩, .auto⟩,
       .circuit ⟨⟨"q", 13⟩, ⟨"d", [], .f64⟩, .auto⟩]⟩ =
      .ok ⟨1, [.circuit ⟨⟨"q", 13⟩, ⟨"d", [], .f64⟩, .auto⟩,
       .circuit ⟨⟨"q", 13⟩, ⟨"d", [], .f64⟩, .auto⟩]⟩ := by
  refine ⟨?_, rfl, rfl, rfl⟩
  intro p hp
  unfold mkQuantumProgramModel at hp
  rw [if_pos hs] at hp
  by_cases hcond : ChunkSize.auto ∈ m.items.map ProgramItemData.chunk_size ∧
      1 < (m.items.map ProgramItemData.chunk_size).dedup.length
  · rw [if_pos hcond] at hp
    exact absurd hp (by simp)
  · by_cases hauto : ChunkSize.auto ∈ m.items.map ProgramItemData.chunk_size
    · left
      have hlen : (m.items.map ProgramItemData.chunk_size).dedup.length ≤ 1 := by
        by_contra hc
        exact hcond ⟨hauto, by omega⟩
      intro i hi
      have hx : i.chunk_size ∈ m.items.map ProgramItemData.chunk_size :=
        List.mem_map_of_mem _ hi
      have hxd : i.chunk_size ∈
          (m.items.map ProgramItemData.chunk_size).dedup :=
        List.mem_dedup.mpr hx
      have had : ChunkSize.auto ∈
          (m.items.map ProgramItemData.chunk_size).dedup :=
        List.mem_dedup.mpr hauto
      cases hd : (m.items.map ProgramItemData.chunk_size).dedup with
      | nil =>
        rw [hd] at had
        simp at had
      | cons y ys =>
        rw [hd] at hxd had hlen
        simp only [List.length_cons] at hlen
        have hys : ys = [] := List.eq_nil_of_length_eq_zero (by omega)
        subst hys
        simp only [List.mem_singleton] at hxd had
        rw [hxd, had]
    · right
      intro i hi hcontra
      exact hauto (List.mem_map.mpr ⟨i, hi, hcontra⟩)

/-- Witness for C8: the universal part applied to the consistent two-item
batch with explicit chunk sizes, yielding that its items are uniformly
non-sentinel. -/
theorem claim_C8_chunk_consistency_witness :
    (∀ i ∈ [ProgramItemData.circuit ⟨⟨"q", 13⟩, ⟨"d", [], .f64⟩, .int 2⟩,
       ProgramItemData.circuit ⟨⟨"q", 13⟩, ⟨"d", [], .f64⟩, .int 2⟩],
      ProgramItemData.chunk_size i = .auto) ∨
    (∀ i ∈ [ProgramItemData.circuit ⟨⟨"q", 13⟩, ⟨"d", [], .f64⟩, .int 2⟩,
       ProgramItemData.circuit ⟨⟨"q", 13⟩, ⟨"d", [], .f64⟩, .int 2⟩],
      ProgramItemData.chunk_size i ≠ .auto) :=
  (claim_C8_chunk_consistency ⟨1,
    [.circuit ⟨⟨"q", 13⟩, ⟨"d", [], .f64⟩, .int 2⟩,
     .circuit ⟨⟨"q", 13⟩, ⟨"d", [], .f64⟩, .int 2⟩]⟩ (by decide)).1
    ⟨1, [.circuit ⟨⟨"q", 13⟩, ⟨"d", [], .f64⟩, .int 2⟩,
     .circuit ⟨⟨"q", 13⟩, ⟨"d", [], .f64⟩, .int 2⟩]⟩ rfl

/-- C10: the size validator derives the byte length solely from the data
field's character count and trailing padding characters, without base-64
decoding; consequently a record whose data has length not a multiple of 4
(`AAAAA`) constructs successfully yet `to_numpy` raises on decoding, and a
record whose data holds characters outside the alphabet (`AAAA!!!!`)
constructs successfully although its actual decoded byte length (3)
differs from the shape-implied 6, making `to_numpy` raise on reshape. -/
theorem claim_C10_validator_no_decode :
    (mkTensorModel "AAAAA" [3] .u8 = .ok ⟨"AAAAA", [3], .u8⟩
      ∧ b64decodeModel "AAAAA" = none
      ∧ to_numpy ⟨"AAAAA", [3], .u8⟩ = .error .base64DecodeError)
    ∧ (mkTensorModel "AAAA!!!!" [6] .u8 = .ok ⟨"AAAA!!!!", [6], .u8⟩
      ∧ b64decodeModel "AAAA!!!!" = some [0, 0, 0]
      ∧ ([0, 0, 0] : List Nat).length ≠ nbytesD .u8 [6]
      ∧ to_numpy ⟨"AAAA!!!!", [6], .u8⟩ = .error .reshapeError) :=
  ⟨⟨rfl, rfl, rfl⟩, ⟨rfl, rfl, by decide, rfl⟩⟩
